import Mathlib

/-!
Verification of the Avito price analyzer core (src/main.py).

Shallow embedding conventions:
* Text is modelled as a list of Unicode code points, `Str := List Nat`
  (Python `str` is a sequence of code points).  String constants of the
  source appear as explicit code-point lists with the text in a comment.
* Machine reals of the source (`float`) are modelled as exact rationals
  `ℚ`; NaN ("not a number", produced by `to_float` for an unparsable or
  absent cost) is modelled as `Option.none`.
* Regular-expression substitutions of the source are implemented as
  direct scanners with the same leftmost, non-overlapping semantics as
  Python's `re.sub` / `re.findall` on the patterns actually used.
* HTML documents are modelled by the results of the fixed selector
  queries the source performs on them (`Doc`, `Node`, `Anchor` below);
  the document's visible text is carried alongside because the spec
  talks about it.
-/

namespace Avito

/-- A Python string: list of Unicode code points. -/
abbrev Str := List Nat

/-! ### Character classes (code-point predicates) -/

/-- `\d` of Python's `re`: an ASCII decimal digit (the source text is
already restricted to ASCII digits by the points where `\d` is used). -/
def isDigitC (c : Nat) : Bool := 48 ≤ c && c ≤ 57

/-- Python's `\s` / `str.isspace`: whitespace code points.  Covers the
ASCII whitespace, the C1 controls Python treats as space, NBSP (160) and
the common Unicode space separators. -/
def isWsC (c : Nat) : Bool :=
  (9 ≤ c && c ≤ 13) || (28 ≤ c && c ≤ 31) || c == 32 || c == 133 || c == 160 ||
  c == 5760 || (8192 ≤ c && c ≤ 8202) || c == 8232 || c == 8233 ||
  c == 8239 || c == 8287 || c == 12288

/-- `str.lower` on the alphabets the program manipulates: ASCII `A`-`Z`
(65-90), Cyrillic `А`-`Я` (1040-1071) and `Ё` (1025); any other code
point is left unchanged. -/
def lowc (c : Nat) : Nat :=
  if 65 ≤ c && c ≤ 90 then c + 32
  else if 1040 ≤ c && c ≤ 1071 then c + 32
  else if c == 1025 then 1105
  else c

/-- The character class kept by `re.sub(r"[^a-z0-9а-яё\s\-]+", " ", s,
flags=re.IGNORECASE)` in `normalize_text`: ASCII letters, digits,
Cyrillic letters (with ё/Ё), whitespace and the hyphen. -/
def isAllowedC (c : Nat) : Bool :=
  (97 ≤ c && c ≤ 122) || (48 ≤ c && c ≤ 57) || (1072 ≤ c && c ≤ 1103) ||
  c == 1105 || (65 ≤ c && c ≤ 90) || (1040 ≤ c && c ≤ 1071) || c == 1025 ||
  isWsC c || c == 45

/-! ### `normalize_text` (src/main.py lines 93-102) -/

/-- `s.lower()`. -/
def low (s : Str) : Str := s.map lowc

/-- `s.replace("чёр", "чер")` — ч=1095, ё=1105, р=1088, е=1077.
Left-to-right, non-overlapping, scanning resumes after a replacement. -/
def replCher : Str → Str
  | 1095 :: 1105 :: 1088 :: rest => 1095 :: 1077 :: 1088 :: replCher rest
  | c :: rest => c :: replCher rest
  | [] => []

/-- Maximal digit prefix of a string, and the remainder. -/
def takeDigits : Str → Str × Str
  | [] => ([], [])
  | c :: rest =>
    if isDigitC c then (c :: (takeDigits rest).1, (takeDigits rest).2)
    else ([], c :: rest)

/-- Drop the maximal whitespace prefix (the `\s*` part of the pattern). -/
def dropWs (s : Str) : Str := s.dropWhile (fun c => isWsC c)

/-- `re.sub(r"(\d+)\s*(U1|U2)", lambda m: m.group(1) + AB, s)` for the two
capacity patterns of `normalize_text`, as a direct scanner.  At each
position: if a digit starts here, take the maximal digit run, skip
whitespace, and test the two unit alternatives in order; on a match emit
the digits followed by the canonical abbreviation and resume after the
match, otherwise emit one character and move on.  (No other backtracking
arises for this pattern: a shorter digit run leaves a digit in front of
the unit, and a shorter whitespace run leaves whitespace, both of which
fail immediately.)  `fuel` bounds the recursion; callers pass the string
length, which suffices because every step consumes at least one
character. -/
def subUnitF (cy la ab : Str) : Nat → Str → Str
  | 0, s => s
  | _ + 1, [] => []
  | fuel + 1, c :: rest =>
    if isDigitC c then
      if cy.isPrefixOf (dropWs (takeDigits (c :: rest)).2) then
        (takeDigits (c :: rest)).1 ++ ab ++
          subUnitF cy la ab fuel ((dropWs (takeDigits (c :: rest)).2).drop cy.length)
      else if la.isPrefixOf (dropWs (takeDigits (c :: rest)).2) then
        (takeDigits (c :: rest)).1 ++ ab ++
          subUnitF cy la ab fuel ((dropWs (takeDigits (c :: rest)).2).drop la.length)
      else c :: subUnitF cy la ab fuel rest
    else c :: subUnitF cy la ab fuel rest

/-- `re.sub(r"(\d+)\s*(гб|gb)", lambda m: f"{m.group(1)}gb", s)` —
г=1075, б=1073, g=103, b=98. -/
def subGb (s : Str) : Str := subUnitF [1075, 1073] [103, 98] [103, 98] s.length s

/-- `re.sub(r"(\d+)\s*(тб|tb)", lambda m: f"{m.group(1)}tb", s)` —
т=1090, б=1073, t=116, b=98. -/
def subTb (s : Str) : Str := subUnitF [1090, 1073] [116, 98] [116, 98] s.length s

/-- `re.sub(r"[^a-z0-9а-яё\s\-]+", " ", s, flags=re.IGNORECASE)`:
each maximal run of disallowed characters becomes a single space.
The boolean state records whether the previous character was part of a
disallowed run already replaced. -/
def filtAux : Bool → Str → Str
  | _, [] => []
  | inRun, c :: rest =>
    if isAllowedC c then c :: filtAux false rest
    else if inRun then filtAux true rest
    else 32 :: filtAux true rest

def filt (s : Str) : Str := filtAux false s

/-- `re.sub(r"\s+", " ", s)`: each maximal whitespace run becomes a
single space (32). -/
def collAux : Bool → Str → Str
  | _, [] => []
  | inWs, c :: rest =>
    if isWsC c then
      (if inWs then collAux true rest else 32 :: collAux true rest)
    else c :: collAux false rest

def collapseWs (s : Str) : Str := collAux false s

/-- `s.strip()`: drop leading and trailing whitespace. -/
def stripWs (s : Str) : Str :=
  (((s.dropWhile (fun c => isWsC c)).reverse.dropWhile (fun c => isWsC c))).reverse

/-- `normalize_text` (src/main.py lines 93-102): lower-case, collapse
`чёр`→`чер`, canonicalize capacity expressions, strip disallowed
characters to spaces, collapse whitespace, trim. -/
def normalize_text (s : Str) : Str :=
  stripWs (collapseWs (filt (subTb (subGb (replCher (low s))))))

/-! ### Substring test and `score_listing_match` (lines 233-245) -/

/-- Python's `tok in lt` for strings: contiguous substring test. -/
def isSubstr : Str → Str → Bool
  | n, [] => n.isEmpty
  | n, c :: t => n.isPrefixOf (c :: t) || isSubstr n t

/-- `score_listing_match(listing_title, required_tokens)`: the fraction
of required tokens occurring as substrings of the normalized title —
`hits / len(required_tokens)` (`mkRat hits len` is that quotient, see
`score_eq_div`); `0.0` for an empty token list. -/
def score_listing_match (listing_title : Str) (required_tokens : List Str) : ℚ :=
  if required_tokens = [] then 0
  else
    mkRat
      (required_tokens.countP
        (fun tok => isSubstr tok (normalize_text listing_title)) : ℤ)
      required_tokens.length

/-! ### `Listing` and `choose_relevant` (lines 80-84 and 248-254) -/

/-- `@dataclass class Listing` (lines 80-84): `price_rub: Optional[int]`,
always non-negative when present (it is parsed from digit runs). -/
structure Listing where
  title : Str
  url : Str
  price_rub : Option Nat
deriving DecidableEq, Repr

/-- Python truthiness of `li.price_rub` in `choose_relevant`'s filter
(`... for li in listings if li.price_rub`): `None` and `0` are falsy. -/
def priceTruthy : Option Nat → Bool
  | none => false
  | some n => n != 0

/-- Insertion step of a stable descending sort on the score component:
the inserted element comes from earlier in the original list than every
element of the accumulator, so it is placed before the first element
whose score is ≤ its own. -/
def insertD (x : ℚ × Listing) : List (ℚ × Listing) → List (ℚ × Listing)
  | [] => [x]
  | y :: ys => if y.1 ≤ x.1 then x :: y :: ys else y :: insertD x ys

/-- Stable sort by score descending, modelling
`scored.sort(key=lambda x: x[0], reverse=True)` (Python's sort is
stable; any stable sort by the same key yields the same list). -/
def sortD : List (ℚ × Listing) → List (ℚ × Listing)
  | [] => []
  | x :: xs => insertD x (sortD xs)

/-- `choose_relevant(listings, required_tokens)` (lines 248-254):
score the listings with a truthy price, stable-sort by score
descending, keep scores ≥ 0.5, return the first 20.  The threshold
`0.5` is written `mkRat 1 2` (a normal-form rational, provably equal
to `(1 : ℚ)/2`, see `half_eq`) so that concrete runs evaluate. -/
def choose_relevant (listings : List Listing) (required_tokens : List Str) :
    List Listing :=
  let scored := (listings.filter (fun li => priceTruthy li.price_rub)).map
    (fun li => (score_listing_match li.title required_tokens, li))
  let sorted := sortD scored
  let filtered := (sorted.filter (fun p => decide (mkRat 1 2 ≤ p.1))).map
    (fun p => p.2)
  filtered.take 20

/-! ### Document model and `parse_listings_from_html` (lines 157-230)

The HTML library (BeautifulSoup) is external; a parsed document is
modelled by the results of exactly the selector queries the source
runs on it.  An `<a>` element is modelled by its joined stripped text
(`get_text(" ", strip=True)`) and its optional `href` attribute. -/

structure Anchor where
  text : Str
  href : Option Str
deriving DecidableEq, Repr

/-- One candidate container, modelled by the results of the fixed
sub-queries `extract_title_and_url` and `extract_price_text` perform:
the three title/url anchor lookups (in fallback order), the price
selector texts in their order (`None` = selector found nothing; a found
element carries its text), and the container's full visible text. -/
structure Node where
  /-- `node.select_one('a[data-marker="item-title"]')` -/
  markerTitleLink : Option Anchor
  /-- `node.select_one('a[itemprop="url"]')` -/
  itempropLink : Option Anchor
  /-- `node.find('a', href=True)` (its `href` is present by the query) -/
  firstHrefLink : Option Anchor
  /-- texts of `'[data-marker="item-price"]'`, `'span.price-text'`,
  `'span[data-marker*="price"]'`, `'span[itemprop="price"]'` -/
  priceSelTexts : List (Option Str)
  /-- `node.get_text(" ", strip=True)` -/
  fullText : Str
deriving DecidableEq, Repr

/-- A search-result document, modelled by the results of the three
candidate-discovery queries, the anchor list used by the last-resort
fallback, and the document's visible text (which the spec's bot-check
guard is said to scan; the source never reads it). -/
structure Doc where
  /-- `soup.select('[data-marker="item"]')` -/
  markerItems : List Node
  /-- `soup.select('div[class*="item"]')` -/
  classItemDivs : List Node
  /-- `soup.select('article')` -/
  articles : List Node
  /-- `soup.find_all("a", href=True)` -/
  allAnchors : List Anchor
  /-- the document's visible text -/
  visibleText : Str
deriving DecidableEq, Repr

/-- `list(dict.fromkeys(candidates))`: deduplicate keeping the first
occurrence.  (The source deduplicates the parsed candidate objects;
here candidates are compared by their modelled contents.) -/
def dedupFAux [DecidableEq α] : List α → List α → List α
  | _, [] => []
  | seen, x :: xs =>
    if x ∈ seen then dedupFAux seen xs else x :: dedupFAux (x :: seen) xs

def dedupF [DecidableEq α] (l : List α) : List α := dedupFAux [] l

/-- The candidate containers of a document, in discovery order
(lines 163-172): data-marker items, then `div[class*="item"]`, then
`article`, deduplicated keeping first occurrences. -/
def candidatesOf (doc : Doc) : List Node :=
  dedupF (doc.markerItems ++ doc.classItemDivs ++ doc.articles)

/-- "http" -/
def httpLit : Str := [104, 116, 116, 112]

/-- "https://m.avito.ru" -/
def mAvitoLit : Str :=
  [104, 116, 116, 112, 115, 58, 47, 47, 109, 46, 97, 118, 105, 116, 111,
   46, 114, 117]

/-- "/item" -/
def itemLit : Str := [47, 105, 116, 101, 109]

/-- `base_url.rstrip("/")`. -/
def rstripSlash (s : Str) : Str :=
  (s.reverse.dropWhile (fun c => c == 47)).reverse

/-- `extract_title_and_url(node)` (lines 188-205): first anchor of the
fallback chain; its text (or `None` if empty) is the title; the url is
the href resolved against the base (absolute kept, `/...` prefixed with
the mobile host, otherwise joined to `base_url`), `None` when the href
is missing or empty. -/
def extract_title_and_url (node : Node) (base_url : Str) :
    Option Str × Option Str :=
  match node.markerTitleLink.orElse (fun _ => node.itempropLink)
      |>.orElse (fun _ => node.firstHrefLink) with
  | none => (none, none)
  | some a =>
    let title : Option Str := if a.text = [] then none else some a.text
    let url : Option Str :=
      match a.href with
      | none => none
      | some href =>
        if href = [] then none
        else if httpLit.isPrefixOf href then some href
        else if href.head? = some 47 then some (mAvitoLit ++ href)
        else some (rstripSlash base_url ++ 47 :: href)
    (title, url)

/-- First price-selector text that is non-empty (`if el and
el.get_text(strip=True)`), in selector order. -/
def firstNonempty : List (Option Str) → Option Str
  | [] => none
  | none :: rest => firstNonempty rest
  | some t :: rest => if t = [] then firstNonempty rest else some t

/-- `extract_price_text(node)` (lines 176-186): the four selectors in
order, else the full text when it contains "₽" (8381), else `None`. -/
def extract_price_text (node : Node) : Option Str :=
  match firstNonempty node.priceSelTexts with
  | some t => some t
  | none =>
    if isSubstr [8381] node.fullText then some node.fullText else none

/-- `price_text.replace("\xa0", " ")`. -/
def replace160 (s : Str) : Str := s.map (fun c => if c == 160 then 32 else c)

/-- `re.findall(r"\d+", s)`: the maximal digit runs, left to right.
`fuel` bounds recursion; callers pass the string length. -/
def digitRunsF : Nat → Str → List Str
  | 0, _ => []
  | _ + 1, [] => []
  | fuel + 1, c :: rest =>
    if isDigitC c then
      (c :: (takeDigits rest).1) :: digitRunsF fuel (takeDigits rest).2
    else digitRunsF fuel rest

def digitRuns (s : Str) : List Str := digitRunsF s.length s

/-- `int` of a digit string. -/
def digitsVal (s : Str) : Nat := s.foldl (fun n c => 10 * n + (c - 48)) 0

/-- Lines 211-216: NBSP → space, find all digit runs, concatenate and
parse; no digits ⇒ no price. -/
def parsePrice (t : Str) : Option Nat :=
  let digits := digitRuns (replace160 t)
  if digits = [] then none else some (digitsVal digits.flatten)

/-- The price of a candidate: the parsed price of its extracted price
text (`if price_text:` keeps `price_val = None` for a falsy text). -/
def priceOf (node : Node) : Option Nat :=
  match extract_price_text node with
  | none => none
  | some t => if t = [] then none else parsePrice t

/-- One iteration of the candidate loop (lines 207-217): `None` when the
candidate is skipped (`if not title or not url: continue`), otherwise
the appended `Listing`. -/
def listingOfNode (base_url : Str) (node : Node) : Option Listing :=
  match extract_title_and_url node base_url with
  | (some t, some u) => some ⟨t, u, priceOf node⟩
  | _ => none

/-- The last-resort anchor scan (lines 219-227), run when the candidate
loop produced nothing: anchors with a non-empty text longer than 3
characters whose href contains "/item" become price-less listings. -/
def fallbackListings (doc : Doc) : List Listing :=
  doc.allAnchors.filterMap (fun a =>
    let t := a.text
    let href := a.href.getD []
    if t ≠ [] ∧ 3 < t.length ∧ isSubstr itemLit href = true then
      some ⟨t,
        (if httpLit.isPrefixOf href then href
         else mAvitoLit ++ (if href.head? = some 47 then href else 47 :: href)),
        none⟩
    else none)

/-- The listing sequence before the final cap: the candidate loop's
output, or the anchor-scan fallback when that output is empty. -/
def extractedListings (doc : Doc) (base_url : Str) : List Listing :=
  let listings := (candidatesOf doc).filterMap (listingOfNode base_url)
  if listings = [] then fallbackListings doc else listings

/-- `parse_listings_from_html(html, base_url)` (lines 157-230):
the extracted listings, capped at the first 50. -/
def parse_listings_from_html (doc : Doc) (base_url : Str) : List Listing :=
  (extractedListings doc base_url).take 50

/-! ### `to_float` and the per-row aggregation (lines 272-280, 328-347)

Floats are modelled as exact rationals; `math.nan` (the value of
`to_float` on an absent or unparsable cost) is modelled as `none`. -/

/-- `float(s)` on a string over the alphabet {digits, '.', '-'}:
an optional leading minus, then digits with at most one decimal point
and at least one digit; anything else raises (→ `none`). -/
def pyFloatStr (s : Str) : Option ℚ :=
  match s with
  | 45 :: r => (pyFloatNonneg r).map (fun v => -v)
  | r => pyFloatNonneg r
where
  pyFloatNonneg (r : Str) : Option ℚ :=
    let ip := r.takeWhile isDigitC
    match r.drop ip.length with
    | [] => if ip = [] then none else some (digitsVal ip : ℚ)
    | 46 :: fp =>
      if fp.all isDigitC ∧ (ip ≠ [] ∨ fp ≠ []) then
        some ((digitsVal ip : ℚ) + (digitsVal fp : ℚ) / (10 : ℚ) ^ fp.length)
      else none
    | _ => none

/-- `to_float(x)` (lines 272-280) applied to the string form of the cost
cell (`none` input = `pd.isna(x)`): drop spaces and NBSPs, comma →
decimal point, keep only `[0-9.\-]`, then parse; empty or unparsable ⇒
NaN (`none`). -/
def to_float (x : Option Str) : Option ℚ :=
  match x with
  | none => none
  | some s =>
    let s1 := (s.filter (fun c => c != 32 && c != 160)).map
      (fun c => if c == 44 then 46 else c)
    let s2 := s1.filter (fun c => isDigitC c || c == 46 || c == 45)
    if s2 = [] then none else pyFloatStr s2

/-- Python's `round` (banker's rounding) over exact rationals:
nearest integer, ties to the even one. -/
def rne (x : ℚ) : ℤ :=
  if x - ⌊x⌋ < 1/2 then ⌊x⌋
  else if 1/2 < x - ⌊x⌋ then ⌊x⌋ + 1
  else if ⌊x⌋ % 2 = 0 then ⌊x⌋ else ⌊x⌋ + 1

/-- `round(v, 2)`, modelled over exact rationals. -/
def round2 (x : ℚ) : ℚ := (rne (100 * x) : ℚ) / 100

/-- `li.price_rub or 10**12`: the `min` key of line 338 (`None` and `0`
are falsy and fall back to the sentinel). -/
def priceKey (li : Listing) : Nat :=
  match li.price_rub with
  | none => 10 ^ 12
  | some n => if n = 0 then 10 ^ 12 else n

/-- `min(listings, key=priceKey)`: first element achieving the minimum. -/
def minByKey : Listing → List Listing → Listing
  | best, [] => best
  | best, x :: xs =>
    if priceKey x < priceKey best then minByKey x xs else minByKey best xs

/-- The derived columns of one output row: D (average price),
E (markup percent), F (cheapest url); `none` = the cell is left empty. -/
structure RowResult where
  avgPrice : Option ℚ
  markupPercent : Option ℚ
  cheapestUrl : Option Str
deriving DecidableEq, Repr

/-- Lines 341-346: `markup_percent` is computed only when `avg_price`
is present and the cost is a number (`not (cost_c is None or
isnan(cost_c))`, NaN modelled as `none`), and only for non-zero cost. -/
def markupOf (avg_price : Option ℚ) (cost_c : Option ℚ) : Option ℚ :=
  match avg_price, cost_c with
  | some a, some c => if c ≠ 0 then some ((a - c) / c * 100) else none
  | _, _ => none

/-- The per-row aggregation (lines 328-347) as a function of the
selected listings and the parsed cost: an empty selection takes the
all-absent exit (lines 328-334); otherwise D = rounded mean of the
present prices, E = `(D - C)/C*100` when D is present and the cost is a
number and non-zero, F = the url of the first cheapest listing when
truthy. -/
def aggregateRow (listings : List Listing) (cost_c : Option ℚ) : RowResult :=
  match listings with
  | [] => ⟨none, none, none⟩
  | l0 :: rest =>
    let prices := (l0 :: rest).filterMap (fun li => li.price_rub)
    let avg_price : Option ℚ :=
      if prices = [] then none
      else some (round2 ((prices.map (fun n => (n : ℚ))).sum / (prices.length : ℚ)))
    let cheapest := minByKey l0 rest
    ⟨avg_price, markupOf avg_price cost_c,
      if cheapest.url = [] then none else some cheapest.url⟩

/-! ### Highlight classifier (`save_with_formatting`, lines 404-412) -/

inductive HighlightTier where
  | noHighlight
  | tier1
  | tier2
deriving DecidableEq, Repr

/-- The row-fill decision of lines 404-412: non-numeric cell (`not
isinstance(e_val, (int, float))`) ⇒ no fill; `5.0 <= e_val < 10.0` ⇒
soft yellow (tier 1); `e_val >= 10.0` ⇒ soft green (tier 2); otherwise
no fill. -/
def classify (e_val : Option ℚ) : HighlightTier :=
  match e_val with
  | none => .noHighlight
  | some v =>
    if 5 ≤ v ∧ v < 10 then .tier1
    else if 10 ≤ v then .tier2
    else .noHighlight

/-! ### Bot-challenge phrases (modelled from the spec) -/

/-- Modelled from the spec: the "small set of known anti-automation
phrases" that §4.3 step 1 says the extractor scans the document's
visible text for.  No such guard or phrase set exists in src/main.py,
so the set is taken from the spec's description of bot-challenge pages:
"доступ ограничен" and "вы не робот". -/
def botPhrases : List Str :=
  [[1076, 1086, 1089, 1090, 1091, 1087, 32, 1086, 1075, 1088, 1072, 1085,
    1080, 1095, 1077, 1085],
   [1074, 1099, 32, 1085, 1077, 32, 1088, 1086, 1073, 1086, 1090]]

/-- Visible text contains one of the anti-automation phrases. -/
def containsBotPhrase (t : Str) : Bool :=
  botPhrases.any (fun p => isSubstr p t)

/-! ### A syntactic normal form for `normalize_text` outputs

Used to state the corrected idempotence claim: a string is in normal
form when every stage of `normalize_text` fixes it. -/

/-- Per-character condition: an allowed character, already lower-case,
and any whitespace is a plain space. -/
def charOk (c : Nat) : Bool :=
  isAllowedC c && (lowc c == c) && (!isWsC c || c == 32)

/-- Contains the substring "чёр". -/
def hasCher : Str → Bool
  | 1095 :: 1105 :: 1088 :: _ => true
  | _ :: rest => hasCher rest
  | [] => false

/-- No two adjacent whitespace characters. -/
def noDoubleWs : Str → Bool
  | c :: d :: rest => !(isWsC c && isWsC d) && noDoubleWs (d :: rest)
  | _ => true

/-- The first character, if any, is not whitespace. -/
def noLeadWs : Str → Bool
  | [] => true
  | c :: _ => !isWsC c

/-- Scanner mirroring `subUnitF`: `true` when every capacity match the
substitution would find is already canonical (Latin unit, no whitespace
gap), so that the substitution rewrites the string to itself. -/
def unitCanonF (cy la : Str) : Nat → Str → Bool
  | 0, _ => true
  | _ + 1, [] => true
  | fuel + 1, c :: rest =>
    if isDigitC c then
      if cy.isPrefixOf (dropWs (takeDigits (c :: rest)).2) then false
      else if la.isPrefixOf (dropWs (takeDigits (c :: rest)).2) then
        (dropWs (takeDigits (c :: rest)).2 == (takeDigits (c :: rest)).2) &&
          unitCanonF cy la fuel ((dropWs (takeDigits (c :: rest)).2).drop la.length)
      else unitCanonF cy la fuel rest
    else unitCanonF cy la fuel rest

/-- Normal form for `normalize_text`: only allowed lower-case
characters with plain single internal spaces, trimmed, no "чёр", and
both capacity substitutions already canonical. -/
def isNormalForm (y : Str) : Bool :=
  y.all charOk && noDoubleWs y && noLeadWs y && noLeadWs y.reverse &&
  !hasCher y && unitCanonF [1075, 1073] [103, 98] y.length y &&
  unitCanonF [1090, 1073] [116, 98] y.length y

/-! ### Helper lemmas -/

theorem takeDigits_app (s : Str) : (takeDigits s).1 ++ (takeDigits s).2 = s := by
  induction s with
  | nil => rfl
  | cons c rest ih =>
    by_cases h : isDigitC c = true
    · simp [takeDigits, h, ih]
    · simp [takeDigits, h]

theorem takeDigits_all_digits (s : Str) :
    ∀ c ∈ (takeDigits s).1, isDigitC c = true := by
  induction s with
  | nil => intro c hc; simp [takeDigits] at hc
  | cons a rest ih =>
    intro c hc
    by_cases h : isDigitC a = true
    · simp [takeDigits, h] at hc
      rcases hc with hc | hc
      · exact hc ▸ h
      · exact ih c hc
    · simp [takeDigits, h] at hc

theorem takeDigits_snd_len (s : Str) : (takeDigits s).2.length ≤ s.length := by
  conv_rhs => rw [← takeDigits_app s]
  simp

theorem digitRunsF_flatten :
    ∀ fuel s, s.length ≤ fuel →
      (digitRunsF fuel s).flatten = s.filter isDigitC := by
  intro fuel
  induction fuel with
  | zero =>
    intro s hs
    have : s = [] := List.length_eq_zero.mp (Nat.le_zero.mp hs)
    subst this; rfl
  | succ fuel ih =>
    intro s hs
    match s with
    | [] => rfl
    | c :: rest =>
      by_cases h : isDigitC c = true
      · have hlen : (takeDigits rest).2.length ≤ fuel :=
          le_trans (takeDigits_snd_len rest) (Nat.lt_succ_iff.mp hs)
        have hfil : (takeDigits rest).1.filter isDigitC = (takeDigits rest).1 :=
          List.filter_eq_self.mpr (takeDigits_all_digits rest)
        calc (digitRunsF (fuel + 1) (c :: rest)).flatten
            = (c :: (takeDigits rest).1) ++ (digitRunsF fuel (takeDigits rest).2).flatten := by
              simp [digitRunsF, h]
          _ = (c :: (takeDigits rest).1) ++ (takeDigits rest).2.filter isDigitC :=
              by rw [ih _ hlen]
          _ = (c :: rest).filter isDigitC := by
              have : (c :: rest).filter isDigitC
                  = c :: ((takeDigits rest).1 ++ (takeDigits rest).2).filter isDigitC := by
                rw [takeDigits_app]; simp [List.filter, h]
              rw [this, List.filter_append, hfil]; simp
      · have hlen : rest.length ≤ fuel := Nat.lt_succ_iff.mp hs
        simp [digitRunsF, h, ih _ hlen, List.filter, h]

theorem digitRunsF_ne_nil :
    ∀ fuel s g, g ∈ digitRunsF fuel s → g ≠ [] := by
  intro fuel
  induction fuel with
  | zero => intro s g hg; simp [digitRunsF] at hg
  | succ fuel ih =>
    intro s g hg
    match s with
    | [] => simp [digitRunsF] at hg
    | c :: rest =>
      by_cases h : isDigitC c = true
      · simp [digitRunsF, h] at hg
        rcases hg with hg | hg
        · subst hg; simp
        · exact ih _ _ hg
      · simp [digitRunsF, h] at hg
        exact ih _ _ hg

theorem filter_replace160 (t : Str) :
    (replace160 t).filter isDigitC = t.filter isDigitC := by
  induction t with
  | nil => rfl
  | cons c rest ih =>
    by_cases h : c = 160
    · subst h; simpa [replace160, List.filter, isDigitC] using ih
    · by_cases hd : isDigitC c = true <;>
        simp [replace160, List.filter, h, hd] at ih ⊢ <;> exact ih

/-! ### C5 -/

/-- C5: the highlight classifier is total and maps an absent or
non-numeric markup to no highlight, markup in [5, 10) to tier 1,
markup ≥ 10 to tier 2, markup < 5 to no highlight; in particular
4.99 ⇒ none, 5.00 ⇒ tier 1, 9.99 ⇒ tier 1, 10.00 ⇒ tier 2. -/
theorem c5_classify_spec :
    classify none = HighlightTier.noHighlight ∧
    (∀ v : ℚ, 5 ≤ v → v < 10 → classify (some v) = HighlightTier.tier1) ∧
    (∀ v : ℚ, 10 ≤ v → classify (some v) = HighlightTier.tier2) ∧
    (∀ v : ℚ, v < 5 → classify (some v) = HighlightTier.noHighlight) ∧
    classify (some (499/100)) = HighlightTier.noHighlight ∧
    classify (some 5) = HighlightTier.tier1 ∧
    classify (some (999/100)) = HighlightTier.tier1 ∧
    classify (some 10) = HighlightTier.tier2 := by
  refine ⟨rfl, ?_, ?_, ?_, by norm_num [classify], by norm_num [classify],
    by norm_num [classify], by norm_num [classify]⟩
  · intro v h1 h2
    simp [classify, h1, h2]
  · intro v h
    have h1 : (5 : ℚ) ≤ v := by linarith
    have h2 : ¬ v < 10 := by linarith
    simp [classify, h1, h2, h]
  · intro v h
    have h1 : ¬ (5 : ℚ) ≤ v := by linarith
    have h2 : ¬ (10 : ℚ) ≤ v := by linarith
    simp [classify, h1, h2]

/-- Witness for C5 at concrete markups 7, 12 and 1. -/
theorem c5_classify_witness :
    classify (some 7) = HighlightTier.tier1 ∧
    classify (some 12) = HighlightTier.tier2 ∧
    classify (some 1) = HighlightTier.noHighlight :=
  ⟨c5_classify_spec.2.1 7 (by norm_num) (by norm_num),
   c5_classify_spec.2.2.1 12 (by norm_num),
   c5_classify_spec.2.2.2.1 1 (by norm_num)⟩

/-! ### C8 -/

/-- C8: the price of a listing is the integer formed by concatenating
all digit runs of the extracted price text, and it is absent — not
zero — when the text has no digits; the text «12 500 ₽» (NBSP between
the groups) parses to 12500. -/
theorem c8_price_parse :
    (∀ t : Str,
      (parsePrice t = none ↔ t.filter isDigitC = []) ∧
      (t.filter isDigitC ≠ [] →
        parsePrice t = some (digitsVal (t.filter isDigitC)))) ∧
    parsePrice [49, 50, 160, 53, 48, 48, 32, 8381] = some 12500 := by
  constructor
  · intro t
    have hj : (digitRuns (replace160 t)).flatten = t.filter isDigitC := by
      rw [digitRuns, digitRunsF_flatten _ _ le_rfl, filter_replace160]
    have hnil : digitRuns (replace160 t) = [] ↔ t.filter isDigitC = [] := by
      constructor
      · intro h; rw [← hj, h]; rfl
      · intro h
        rcases hq : digitRuns (replace160 t) with _ | ⟨g, gs⟩
        · rfl
        · exfalso
          have hg : g ≠ [] :=
            digitRunsF_ne_nil _ _ g (by rw [← digitRuns, hq]; simp)
          have hfl : (digitRuns (replace160 t)).flatten = g ++ gs.flatten := by
            rw [hq]; rfl
          rw [hj, h] at hfl
          exact hg (List.append_eq_nil.mp hfl.symm).1
    constructor
    · by_cases h : digitRuns (replace160 t) = []
      · simp [parsePrice, h, hnil.mp h]
      · simp only [parsePrice, h, if_neg h]
        simp only [hnil] at h
        simp [h]
    · intro h
      have hne : ¬ digitRuns (replace160 t) = [] := fun hc => h (hnil.mp hc)
      simp [parsePrice, hne, hj]
  · decide

/-- Witness for C8: the price text «a12b» has digits and parses to
their value; «₽» alone has none and yields an absent price. -/
theorem c8_price_witness :
    parsePrice [97, 49, 50, 98] =
      some (digitsVal (([97, 49, 50, 98] : Str).filter isDigitC)) ∧
    parsePrice [8381] = none :=
  ⟨(c8_price_parse.1 [97, 49, 50, 98]).2 (by decide),
   (c8_price_parse.1 [8381]).1.mpr (by decide)⟩

/-! ### C2 -/

/-- C2: `markupPercent` is present in an output row iff `avgPrice` is
present and the row's cost parses to a non-zero number; in particular
`markupPercent` is never present with `avgPrice` absent. -/
theorem c2_markup_iff (listings : List Listing) (x : Option Str) :
    ((aggregateRow listings (to_float x)).markupPercent ≠ none ↔
      (aggregateRow listings (to_float x)).avgPrice ≠ none ∧
        ∃ c : ℚ, to_float x = some c ∧ c ≠ 0) ∧
    ((aggregateRow listings (to_float x)).markupPercent ≠ none →
      (aggregateRow listings (to_float x)).avgPrice ≠ none) := by
  have hmk : ∀ A o : Option ℚ,
      markupOf A o ≠ none ↔ A ≠ none ∧ ∃ c : ℚ, o = some c ∧ c ≠ 0 := by
    intro A o
    match A, o with
    | none, none => simp [markupOf]
    | none, some c => simp [markupOf]
    | some a, none => simp [markupOf]
    | some a, some c => by_cases hc : c = 0 <;> simp [markupOf, hc]
  suffices h : ∀ o : Option ℚ,
      (aggregateRow listings o).markupPercent ≠ none ↔
        (aggregateRow listings o).avgPrice ≠ none ∧
          ∃ c : ℚ, o = some c ∧ c ≠ 0 by
    exact ⟨h (to_float x), fun hm => ((h (to_float x)).mp hm).1⟩
  intro o
  match listings with
  | [] => simp [aggregateRow]
  | l0 :: rest => exact hmk _ o

/-- Witness for C2: one 120-priced listing against cost «100». -/
theorem c2_markup_witness :
    ((aggregateRow [⟨[97], [98], some 120⟩] (to_float (some [49, 48, 48]))).markupPercent ≠ none ↔
      (aggregateRow [⟨[97], [98], some 120⟩] (to_float (some [49, 48, 48]))).avgPrice ≠ none ∧
        ∃ c : ℚ, to_float (some [49, 48, 48]) = some c ∧ c ≠ 0) ∧
    ((aggregateRow [⟨[97], [98], some 120⟩] (to_float (some [49, 48, 48]))).markupPercent ≠ none →
      (aggregateRow [⟨[97], [98], some 120⟩] (to_float (some [49, 48, 48]))).avgPrice ≠ none) :=
  c2_markup_iff [⟨[97], [98], some 120⟩] (some [49, 48, 48])

/-! ### Stable descending sort: helper lemmas -/

theorem mem_insertD (x y : ℚ × Listing) (l : List (ℚ × Listing)) :
    y ∈ insertD x l ↔ y = x ∨ y ∈ l := by
  induction l with
  | nil => simp [insertD]
  | cons z zs ih =>
    by_cases h : z.1 ≤ x.1
    · simp [insertD, h]
    · simp [insertD, h, ih]
      tauto

theorem mem_sortD (y : ℚ × Listing) (l : List (ℚ × Listing)) :
    y ∈ sortD l ↔ y ∈ l := by
  induction l with
  | nil => simp [sortD]
  | cons z zs ih => simp [sortD, mem_insertD, ih]

theorem pairwise_insertD (x : ℚ × Listing) (l : List (ℚ × Listing))
    (hl : l.Pairwise (fun a b => b.1 ≤ a.1)) :
    (insertD x l).Pairwise (fun a b => b.1 ≤ a.1) := by
  induction l with
  | nil => simp [insertD]
  | cons z zs ih =>
    rcases List.pairwise_cons.mp hl with ⟨hz, hzs⟩
    by_cases h : z.1 ≤ x.1
    · rw [insertD, if_pos h]
      refine List.pairwise_cons.mpr ⟨?_, hl⟩
      intro b hb
      rcases List.mem_cons.mp hb with rfl | hb
      · exact h
      · exact le_trans (hz b hb) h
    · rw [insertD, if_neg h]
      refine List.pairwise_cons.mpr ⟨?_, ih hzs⟩
      intro b hb
      rcases (mem_insertD x b zs).mp hb with rfl | hb
      · exact le_of_not_le h
      · exact hz b hb

theorem pairwise_sortD (l : List (ℚ × Listing)) :
    (sortD l).Pairwise (fun a b => b.1 ≤ a.1) := by
  induction l with
  | nil => simp [sortD]
  | cons z zs ih => exact pairwise_insertD z (sortD zs) ih

theorem filterq_insertD (q : ℚ) (x : ℚ × Listing) (l : List (ℚ × Listing)) :
    (insertD x l).filter (fun p => decide (p.1 = q)) =
      (if x.1 = q then [x] else []) ++ l.filter (fun p => decide (p.1 = q)) := by
  induction l with
  | nil => by_cases h : x.1 = q <;> simp [insertD, h]
  | cons z zs ih =>
    by_cases h : z.1 ≤ x.1
    · rw [insertD, if_pos h]
      by_cases hx : x.1 = q <;> simp [List.filter_cons, hx]
    · rw [insertD, if_neg h]
      by_cases hz : z.1 = q
      · by_cases hx : x.1 = q
        · exact absurd (le_of_eq (hz.trans hx.symm)) h
        · simp [List.filter_cons, hz, hx, ih]
      · by_cases hx : x.1 = q <;> simp [List.filter_cons, hz, hx, ih]

theorem filterq_sortD (q : ℚ) (l : List (ℚ × Listing)) :
    (sortD l).filter (fun p => decide (p.1 = q)) =
      l.filter (fun p => decide (p.1 = q)) := by
  induction l with
  | nil => simp [sortD]
  | cons z zs ih =>
    rw [sortD, filterq_insertD, ih]
    by_cases hz : z.1 = q <;> simp [List.filter_cons, hz]

theorem filter_self_idem (p : α → Bool) (l : List α) :
    (l.filter p).filter p = l.filter p := by
  induction l with
  | nil => rfl
  | cons a t ih =>
    by_cases h : p a = true <;> simp [List.filter_cons, h, ih]

theorem filter_map_snd (P : Listing → Bool) (l : List (ℚ × Listing)) :
    (l.map (fun p => p.2)).filter P =
      (l.filter (fun p => P p.2)).map (fun p => p.2) := by
  induction l with
  | nil => rfl
  | cons a t ih =>
    by_cases h : P a.2 = true <;> simp [List.filter_cons, h, ih]

theorem filter_map_pair (toks : List Str) (P : ℚ × Listing → Bool)
    (l : List Listing) :
    (l.map (fun li => (score_listing_match li.title toks, li))).filter P =
      (l.filter (fun li => P (score_listing_match li.title toks, li))).map
        (fun li => (score_listing_match li.title toks, li)) := by
  induction l with
  | nil => rfl
  | cons a t ih =>
    by_cases h : P (score_listing_match a.title toks, a) = true <;>
      simp [List.filter_cons, h, ih]

theorem map_snd_pair (toks : List Str) (l : List Listing) :
    (l.map (fun li => (score_listing_match li.title toks, li))).map
      (fun p => p.2) = l := by
  induction l with
  | nil => rfl
  | cons a t ih => simp [ih]

theorem scored_fst (toks : List Str) (fl : List Listing) (p : ℚ × Listing)
    (hp : p ∈ fl.map (fun li => (score_listing_match li.title toks, li))) :
    p.1 = score_listing_match p.2.title toks := by
  rcases List.mem_map.mp hp with ⟨li, _, rfl⟩
  rfl

/-- `choose_relevant` unfolded to its pipeline. -/
theorem choose_relevant_eq (listings : List Listing) (toks : List Str) :
    choose_relevant listings toks =
      (((sortD ((listings.filter (fun li => priceTruthy li.price_rub)).map
        (fun li => (score_listing_match li.title toks, li)))).filter
        (fun p => decide (mkRat 1 2 ≤ p.1))).map (fun p => p.2)).take 20 := rfl

/-- Stability through the selection pipeline, over any scored list
whose first components are the scores of the second: the returned
listings of one score value form a subsequence of the scored input. -/
theorem stability_aux (toks : List Str) (q : ℚ) (l : List (ℚ × Listing))
    (hl : ∀ p ∈ l, p.1 = score_listing_match p.2.title toks) :
    List.Sublist
      (((((sortD l).filter (fun p => decide (mkRat 1 2 ≤ p.1))).map
        (fun p => p.2)).take 20).filter
        (fun li => decide (score_listing_match li.title toks = q)))
      (l.map (fun p => p.2)) := by
  have t1 := (List.take_sublist 20
      (((sortD l).filter (fun p => decide (mkRat 1 2 ≤ p.1))).map
        (fun p => p.2))).filter
    (fun li => decide (score_listing_match li.title toks = q))
  have e1 := filter_map_snd
    (fun li => decide (score_listing_match li.title toks = q))
    ((sortD l).filter (fun p => decide (mkRat 1 2 ≤ p.1)))
  have t3 := ((List.filter_sublist
      (p := fun p => decide (mkRat 1 2 ≤ p.1)) (sortD l)).filter
      (fun p => decide (score_listing_match p.2.title toks = q))).map
    (fun p => p.2)
  have e2 : (sortD l).filter
      (fun p => decide (score_listing_match p.2.title toks = q)) =
      (sortD l).filter (fun p => decide (p.1 = q)) :=
    List.filter_congr (fun p hp => by
      have h := hl p ((mem_sortD p _).mp hp)
      simp only [h])
  have e3 := filterq_sortD q l
  have e4 : l.filter (fun p => decide (p.1 = q)) =
      l.filter (fun p => decide (score_listing_match p.2.title toks = q)) :=
    List.filter_congr (fun p hp => by
      have h := hl p hp
      simp only [h])
  have t4 := (List.filter_sublist
      (p := fun p => decide (score_listing_match p.2.title toks = q)) l).map
    (fun p => p.2)
  have h2 := e1 ▸ t1
  have h3 := h2.trans t3
  have heq : (sortD l).filter
      (fun p => decide (score_listing_match p.2.title toks = q)) =
      l.filter (fun p => decide (score_listing_match p.2.title toks = q)) :=
    (e2.trans e3).trans e4
  rw [heq] at h3
  exact h3.trans t4

/-- The 0.5 relevance threshold of line 252, as written in
`choose_relevant` (`mkRat 1 2`, kept in constructor form so that it
evaluates), equals 1/2. -/
theorem half_eq : (mkRat 1 2 : ℚ) = (1 : ℚ)/2 := by
  rw [Rat.mkRat_eq_div]; norm_num

/-! ### C1 -/

/-- C1: `choose_relevant` returns at most 20 listings, each scoring at
least the 0.5 threshold against the token list; the result is ordered
by score descending; and for every score value the returned listings
with that score form a subsequence of the input, i.e. ties keep their
discovery order. -/
theorem c1_choose_relevant_spec (listings : List Listing) (toks : List Str) :
    (choose_relevant listings toks).length ≤ 20 ∧
    (∀ li ∈ choose_relevant listings toks,
      (1 : ℚ)/2 ≤ score_listing_match li.title toks) ∧
    (choose_relevant listings toks).Pairwise (fun a b =>
      score_listing_match b.title toks ≤ score_listing_match a.title toks) ∧
    (∀ q : ℚ, List.Sublist ((choose_relevant listings toks).filter
      (fun li => decide (score_listing_match li.title toks = q))) listings) := by
  refine ⟨?_, ?_, ?_, ?_⟩
  · rw [choose_relevant_eq]
    exact List.length_take_le 20 _
  · intro li hli
    rw [choose_relevant_eq] at hli
    have hli' := List.take_subset _ _ hli
    rcases List.mem_map.mp hli' with ⟨p, hpmem, rfl⟩
    rcases List.mem_filter.mp hpmem with ⟨hsort, hpr⟩
    have hfst := scored_fst toks _ p ((mem_sortD p _).mp hsort)
    have hle := of_decide_eq_true hpr
    rw [hfst] at hle
    rw [← half_eq]
    exact hle
  · rw [choose_relevant_eq]
    have h2 := (pairwise_sortD
      ((listings.filter (fun li => priceTruthy li.price_rub)).map
        (fun li => (score_listing_match li.title toks, li)))).sublist
      (List.filter_sublist (p := fun p => decide (mkRat 1 2 ≤ p.1)) _)
    have h3 := h2.imp_of_mem (S := fun p r =>
        score_listing_match r.2.title toks ≤ score_listing_match p.2.title toks)
      (fun {a b} ha hb hr => by
        show score_listing_match b.2.title toks ≤ score_listing_match a.2.title toks
        rw [← scored_fst toks _ _ ((mem_sortD _ _).mp (List.mem_filter.mp ha).1),
          ← scored_fst toks _ _ ((mem_sortD _ _).mp (List.mem_filter.mp hb).1)]
        exact hr)
    have h4 : (((sortD ((listings.filter (fun li => priceTruthy li.price_rub)).map
        (fun li => (score_listing_match li.title toks, li)))).filter
        (fun p => decide (mkRat 1 2 ≤ p.1))).map (fun p => p.2)).Pairwise
        (fun a b => score_listing_match b.title toks ≤
          score_listing_match a.title toks) :=
      List.pairwise_map.mpr h3
    exact h4.sublist (List.take_sublist 20 _)
  · intro q
    rw [choose_relevant_eq]
    have hs := stability_aux toks q _
      (scored_fst toks (listings.filter (fun li => priceTruthy li.price_rub)))
    rw [map_snd_pair toks] at hs
    exact hs.trans
      (List.filter_sublist (p := fun li => priceTruthy li.price_rub) listings)

/-- Witness for C1 at a concrete input: three listings, one token. -/
theorem c1_choose_relevant_witness :
    (choose_relevant [⟨[97, 98], [117], some 100⟩, ⟨[122], [118], some 50⟩,
        ⟨[97, 98, 99], [119], some 200⟩] [[97, 98]]).length ≤ 20 ∧
    (1 : ℚ)/2 ≤ score_listing_match [97, 98] [[97, 98]] ∧
    (choose_relevant [⟨[97, 98], [117], some 100⟩, ⟨[122], [118], some 50⟩,
        ⟨[97, 98, 99], [119], some 200⟩] [[97, 98]]).Pairwise (fun a b =>
      score_listing_match b.title [[97, 98]] ≤ score_listing_match a.title [[97, 98]]) ∧
    List.Sublist ((choose_relevant [⟨[97, 98], [117], some 100⟩,
        ⟨[122], [118], some 50⟩, ⟨[97, 98, 99], [119], some 200⟩] [[97, 98]]).filter
      (fun li => decide (score_listing_match li.title [[97, 98]] = 1)))
        [⟨[97, 98], [117], some 100⟩, ⟨[122], [118], some 50⟩,
         ⟨[97, 98, 99], [119], some 200⟩] :=
  ⟨(c1_choose_relevant_spec [⟨[97, 98], [117], some 100⟩, ⟨[122], [118], some 50⟩,
      ⟨[97, 98, 99], [119], some 200⟩] [[97, 98]]).1,
   (c1_choose_relevant_spec [⟨[97, 98], [117], some 100⟩, ⟨[122], [118], some 50⟩,
      ⟨[97, 98, 99], [119], some 200⟩] [[97, 98]]).2.1
     ⟨[97, 98], [117], some 100⟩ (by decide),
   (c1_choose_relevant_spec [⟨[97, 98], [117], some 100⟩, ⟨[122], [118], some 50⟩,
      ⟨[97, 98, 99], [119], some 200⟩] [[97, 98]]).2.2.1,
   (c1_choose_relevant_spec [⟨[97, 98], [117], some 100⟩, ⟨[122], [118], some 50⟩,
      ⟨[97, 98, 99], [119], some 200⟩] [[97, 98]]).2.2.2 1⟩

/-! ### C9 -/

/-- C9: a listing whose price is 0 (or absent) is rejected by
`choose_relevant`'s presence test before scoring: the selection is
unchanged when such listings are removed from the input, every selected
listing has a truthy (present, non-zero) price, and the aggregated row
(avgPrice / markupPercent / cheapestUrl) is likewise unchanged. -/
theorem c9_zero_price (listings : List Listing) (toks : List Str) :
    choose_relevant listings toks =
      choose_relevant (listings.filter (fun li => priceTruthy li.price_rub)) toks ∧
    (∀ li ∈ choose_relevant listings toks, priceTruthy li.price_rub = true) ∧
    (∀ li ∈ choose_relevant listings toks,
      li.price_rub ≠ some 0 ∧ li.price_rub ≠ none) ∧
    (∀ cost : Option ℚ,
      aggregateRow (choose_relevant listings toks) cost =
        aggregateRow (choose_relevant
          (listings.filter (fun li => priceTruthy li.price_rub)) toks) cost) := by
  have hmem : ∀ li ∈ choose_relevant listings toks,
      priceTruthy li.price_rub = true := by
    intro li hli
    rw [choose_relevant_eq] at hli
    have hli' := List.take_subset _ _ hli
    rcases List.mem_map.mp hli' with ⟨p, hpmem, rfl⟩
    have hsort := (List.mem_filter.mp hpmem).1
    have hmem2 := (mem_sortD p _).mp hsort
    rcases List.mem_map.mp hmem2 with ⟨li', hli'', rfl⟩
    exact (List.mem_filter.mp hli'').2
  have heq : choose_relevant listings toks =
      choose_relevant (listings.filter (fun li => priceTruthy li.price_rub)) toks := by
    simp only [choose_relevant, filter_self_idem]
  refine ⟨heq, hmem, ?_, fun cost => by rw [heq]⟩
  intro li hli
  have h := hmem li hli
  constructor
  · intro hc
    rw [hc] at h
    simp [priceTruthy] at h
  · intro hc
    rw [hc] at h
    simp [priceTruthy] at h

/-- Witness for C9 at a concrete input containing a zero-priced and a
price-less listing. -/
theorem c9_zero_price_witness :
    choose_relevant [⟨[97, 98], [117], some 0⟩, ⟨[97, 98], [118], none⟩,
        ⟨[97, 98], [119], some 70⟩] [[97, 98]] =
      choose_relevant ([⟨[97, 98], [117], some 0⟩, ⟨[97, 98], [118], none⟩,
        ⟨[97, 98], [119], some 70⟩].filter
          (fun li => priceTruthy li.price_rub)) [[97, 98]] ∧
    (∀ li ∈ choose_relevant [⟨[97, 98], [117], some 0⟩, ⟨[97, 98], [118], none⟩,
        ⟨[97, 98], [119], some 70⟩] [[97, 98]], priceTruthy li.price_rub = true) ∧
    (∀ li ∈ choose_relevant [⟨[97, 98], [117], some 0⟩, ⟨[97, 98], [118], none⟩,
        ⟨[97, 98], [119], some 70⟩] [[97, 98]],
      li.price_rub ≠ some 0 ∧ li.price_rub ≠ none) ∧
    (∀ cost : Option ℚ,
      aggregateRow (choose_relevant [⟨[97, 98], [117], some 0⟩,
        ⟨[97, 98], [118], none⟩, ⟨[97, 98], [119], some 70⟩] [[97, 98]]) cost =
        aggregateRow (choose_relevant ([⟨[97, 98], [117], some 0⟩,
          ⟨[97, 98], [118], none⟩, ⟨[97, 98], [119], some 70⟩].filter
            (fun li => priceTruthy li.price_rub)) [[97, 98]]) cost) :=
  c9_zero_price [⟨[97, 98], [117], some 0⟩, ⟨[97, 98], [118], none⟩,
    ⟨[97, 98], [119], some 70⟩] [[97, 98]]

/-! ### C10 -/

/-- C10: when the candidate loop yields nothing (the only situation in
which the last-resort anchor scan runs), every returned listing has an
absent price; consequently `choose_relevant` selects nothing from such
a document and the row aggregates to the all-absent result. -/
theorem c10_fallback_rows (doc : Doc) (base_url : Str)
    (h : (candidatesOf doc).filterMap (listingOfNode base_url) = []) :
    (∀ li ∈ parse_listings_from_html doc base_url, li.price_rub = none) ∧
    (∀ toks, choose_relevant (parse_listings_from_html doc base_url) toks = []) ∧
    (∀ toks cost,
      aggregateRow (choose_relevant (parse_listings_from_html doc base_url) toks)
        cost = ⟨none, none, none⟩) := by
  have hext : extractedListings doc base_url = fallbackListings doc := by
    simp [extractedListings, h]
  have hfb : ∀ li ∈ fallbackListings doc, li.price_rub = none := by
    intro li hli
    rcases List.mem_filterMap.mp hli with ⟨a, _, ha⟩
    by_cases hcond : a.text ≠ [] ∧ 3 < a.text.length ∧
        isSubstr itemLit (a.href.getD []) = true
    · simp only [fallbackListings, if_pos hcond] at ha
      cases ha
      rfl
    · simp only [fallbackListings, if_neg hcond] at ha
      cases ha
  have hparse : ∀ li ∈ parse_listings_from_html doc base_url,
      li.price_rub = none := by
    intro li hli
    rw [parse_listings_from_html, hext] at hli
    exact hfb li (List.take_subset _ _ hli)
  have hsel : ∀ toks,
      choose_relevant (parse_listings_from_html doc base_url) toks = [] := by
    intro toks
    have hfilter : (parse_listings_from_html doc base_url).filter
        (fun li => priceTruthy li.price_rub) = [] := by
      rw [List.filter_eq_nil_iff]
      intro li hli
      rw [hparse li hli]
      simp [priceTruthy]
    rw [choose_relevant_eq, hfilter]
    rfl
  exact ⟨hparse, hsel, fun toks cost => by rw [hsel toks]; rfl⟩

/-- Witness for C10: a document whose only extractable content is a
fallback anchor (text «abcd», href «/item/1»). -/
theorem c10_fallback_witness :
    (∀ li ∈ parse_listings_from_html
      ⟨[], [], [], [⟨[97, 98, 99, 100], some [47, 105, 116, 101, 109, 47, 49]⟩], []⟩
      mAvitoLit, li.price_rub = none) ∧
    choose_relevant (parse_listings_from_html
      ⟨[], [], [], [⟨[97, 98, 99, 100], some [47, 105, 116, 101, 109, 47, 49]⟩], []⟩
      mAvitoLit) [[97, 98]] = [] ∧
    aggregateRow (choose_relevant (parse_listings_from_html
      ⟨[], [], [], [⟨[97, 98, 99, 100], some [47, 105, 116, 101, 109, 47, 49]⟩], []⟩
      mAvitoLit) [[97, 98]]) none = ⟨none, none, none⟩ :=
  ⟨(c10_fallback_rows _ _ (by decide)).1,
   (c10_fallback_rows _ _ (by decide)).2.1 [[97, 98]],
   (c10_fallback_rows _ _ (by decide)).2.2 [[97, 98]] none⟩

/-! ### C3 -/

/-- A candidate with a title but no url: the marker title link has text
«ab» and no href attribute. -/
def nodeTitleOnly : Node :=
  ⟨some ⟨[97, 98], none⟩, none, none, [none, none, none, none], []⟩

/-- A document whose only candidate is `nodeTitleOnly` and which has no
anchors for the fallback scan. -/
def docTitleOnly : Doc := ⟨[nodeTitleOnly], [], [], [], []⟩

/-- Counterexample to C3: the claim says a candidate is discarded only
when it lacks BOTH a title and a url, but this candidate has a title
(and only lacks a url) and is discarded — the extractor returns the
empty sequence for its document. -/
theorem c3_discard_cex :
    (extract_title_and_url nodeTitleOnly mAvitoLit).1 ≠ none ∧
    (extract_title_and_url nodeTitleOnly mAvitoLit).2 = none ∧
    listingOfNode mAvitoLit nodeTitleOnly = none ∧
    nodeTitleOnly ∈ candidatesOf docTitleOnly ∧
    parse_listings_from_html docTitleOnly mAvitoLit = [] := by decide

/-- C3 (amended): the candidate loop discards a candidate exactly when
it lacks a title OR lacks a url; a candidate with both — price present
or not — yields a listing carrying the (possibly absent) extracted
price, and that listing is in the pre-cap extracted sequence of any
document that discovered the candidate. -/
theorem c3_discard_amended (base_url : Str) (node : Node) :
    ((listingOfNode base_url node).isSome = true ↔
      (extract_title_and_url node base_url).1.isSome = true ∧
      (extract_title_and_url node base_url).2.isSome = true) ∧
    (∀ li, listingOfNode base_url node = some li →
      li.price_rub = priceOf node) ∧
    (∀ doc : Doc, node ∈ candidatesOf doc →
      ∀ li, listingOfNode base_url node = some li →
        li ∈ extractedListings doc base_url) := by
  refine ⟨?_, ?_, ?_⟩
  · rcases hE : extract_title_and_url node base_url with ⟨t, u⟩
    rcases t with _ | t <;> rcases u with _ | u <;>
      simp [listingOfNode, hE]
  · intro li hli
    rcases hE : extract_title_and_url node base_url with ⟨t, u⟩
    rcases t with _ | t <;> rcases u with _ | u <;>
      simp [listingOfNode, hE] at hli
    rw [← hli]
  · intro doc hmem li hli
    have hin : li ∈ (candidatesOf doc).filterMap (listingOfNode base_url) :=
      List.mem_filterMap.mpr ⟨node, hmem, hli⟩
    have hne : (candidatesOf doc).filterMap (listingOfNode base_url) ≠ [] :=
      List.ne_nil_of_mem hin
    simpa [extractedListings, hne] using hin

/-- A candidate with both a title and a url but no price, and a
document discovering it. -/
def nodeTitleUrl : Node :=
  ⟨some ⟨[97, 98, 99], some [47, 120]⟩, none, none, [], []⟩

def docTitleUrl : Doc := ⟨[nodeTitleUrl], [], [], [], []⟩

/-- Witness for C3 (amended): the price-less candidate with title «abc»
and href «/x» is kept, and its listing (with absent price) appears in
the extracted sequence. -/
theorem c3_discard_witness :
    (Listing.mk [97, 98, 99] (mAvitoLit ++ [47, 120]) none).price_rub =
      priceOf nodeTitleUrl ∧
    Listing.mk [97, 98, 99] (mAvitoLit ++ [47, 120]) none ∈
      extractedListings docTitleUrl mAvitoLit :=
  ⟨(c3_discard_amended mAvitoLit nodeTitleUrl).2.1
      ⟨[97, 98, 99], mAvitoLit ++ [47, 120], none⟩ (by decide),
   (c3_discard_amended mAvitoLit nodeTitleUrl).2.2 docTitleUrl (by decide)
      ⟨[97, 98, 99], mAvitoLit ++ [47, 120], none⟩ (by decide)⟩

/-! ### C4 -/

/-- A document whose visible text is a bot-challenge phrase («доступ
ограничен») but which still carries one extractable candidate
(title «abcd», href «/item1», price text «12 ₽»). -/
def docBotPage : Doc :=
  ⟨[⟨some ⟨[97, 98, 99, 100], some [47, 105, 116, 101, 109, 49]⟩, none, none,
     [some [49, 50, 32, 8381]], [49, 50, 32, 8381]⟩], [], [], [],
   [1076, 1086, 1089, 1090, 1091, 1087, 32, 1086, 1075, 1088, 1072, 1085,
    1080, 1095, 1077, 1085]⟩

/-- Counterexample to C4: a document whose visible text contains a
known anti-automation phrase is NOT answered with the empty sequence —
the extractor has no bot-check guard and still returns the page's
candidates. -/
theorem c4_botcheck_cex :
    containsBotPhrase docBotPage.visibleText = true ∧
    parse_listings_from_html docBotPage mAvitoLit ≠ [] := by decide

/-- C4 (amended): the extractor performs no bot-phrase scan.  On a
document whose visible text contains an anti-automation phrase it
proceeds exactly as on any other document: its result does not depend
on the visible text at all, and it returns the empty sequence precisely
when candidate extraction (including the anchor fallback) yields
nothing. -/
theorem c4_botcheck_amended (doc : Doc) (base_url : Str)
    (h : containsBotPhrase doc.visibleText = true) :
    (parse_listings_from_html doc base_url = [] ↔
      extractedListings doc base_url = []) ∧
    (∀ vt : Str, parse_listings_from_html
      ⟨doc.markerItems, doc.classItemDivs, doc.articles, doc.allAnchors, vt⟩
      base_url = parse_listings_from_html doc base_url) := by
  constructor
  · rw [parse_listings_from_html, List.take_eq_nil_iff]
    simp
  · intro vt
    rcases doc with ⟨m, c, a, an, vt0⟩
    rfl

/-- Witness for C4 (amended) at the bot-phrase document. -/
theorem c4_botcheck_witness :
    (parse_listings_from_html docBotPage mAvitoLit = [] ↔
      extractedListings docBotPage mAvitoLit = []) ∧
    parse_listings_from_html
      ⟨docBotPage.markerItems, docBotPage.classItemDivs, docBotPage.articles,
       docBotPage.allAnchors, []⟩ mAvitoLit =
      parse_listings_from_html docBotPage mAvitoLit :=
  ⟨(c4_botcheck_amended docBotPage mAvitoLit (by decide)).1,
   (c4_botcheck_amended docBotPage mAvitoLit (by decide)).2 []⟩

/-! ### C7 -/

/-- The score as the source writes it: hits / token-set size. -/
theorem score_eq_div (listing_title : Str) (required_tokens : List Str)
    (h : required_tokens ≠ []) :
    score_listing_match listing_title required_tokens =
      (required_tokens.countP
        (fun tok => isSubstr tok (normalize_text listing_title)) : ℚ) /
      (required_tokens.length : ℚ) := by
  rw [score_listing_match, if_neg h, Rat.mkRat_eq_div]
  norm_num

/-- Counterexample to C7: for the empty token list every token occurs
vacuously in the normalized title, yet the score is 0, not 1 — the
biconditional "score = 1 iff every token occurs" fails there. -/
theorem c7_score_cex :
    score_listing_match [97] ([] : List Str) = 0 ∧
    (∀ tok ∈ ([] : List Str), isSubstr tok (normalize_text [97]) = true) ∧
    score_listing_match [97] ([] : List Str) ≠ 1 := by
  refine ⟨by simp [score_listing_match], by simp, ?_⟩
  simp [score_listing_match]

/-- C7 (amended): the relevance score always lies in [0,1]; for a
NONEMPTY token list it equals 1 iff every token is a substring of the
normalized title; and it equals 0 for the empty token list. -/
theorem c7_score_amended (toks : List Str) (title : Str) :
    0 ≤ score_listing_match title toks ∧
    score_listing_match title toks ≤ 1 ∧
    (toks ≠ [] → (score_listing_match title toks = 1 ↔
      ∀ tok ∈ toks, isSubstr tok (normalize_text title) = true)) ∧
    (toks = [] → score_listing_match title toks = 0) := by
  by_cases h : toks = []
  · subst h
    refine ⟨le_refl 0, ?_, fun hc => absurd rfl hc, fun _ => rfl⟩
    rw [show score_listing_match title [] = 0 from rfl]
    norm_num
  · have hlen0 : toks.length ≠ 0 := fun hc => h (List.length_eq_zero.mp hc)
    have hlen : (0 : ℚ) < (toks.length : ℚ) :=
      Nat.cast_pos.mpr (Nat.pos_of_ne_zero hlen0)
    rw [score_eq_div title toks h]
    refine ⟨div_nonneg (Nat.cast_nonneg _) (le_of_lt hlen), ?_, ?_, fun hc => absurd hc h⟩
    · exact (div_le_one hlen).mpr (Nat.cast_le.mpr (List.countP_le_length _))
    · intro _
      rw [div_eq_one_iff_eq (ne_of_gt hlen), Nat.cast_inj]
      exact List.countP_eq_length

/-- Witness for C7 (amended): token «ab», title «xab» — full score. -/
theorem c7_score_witness :
    score_listing_match [120, 97, 98] [[97, 98]] = 1 :=
  ((c7_score_amended [[97, 98]] [120, 97, 98]).2.2.1 (by decide)).mpr (by decide)

/-! ### C6: stage-fixity lemmas for `normalize_text` on normal forms -/

theorem charOk_split (c : Nat) (h : charOk c = true) :
    isAllowedC c = true ∧ lowc c = c ∧ (isWsC c = true → c = 32) := by
  simp only [charOk, Bool.and_eq_true, Bool.or_eq_true, Bool.not_eq_true',
    beq_iff_eq] at h
  refine ⟨h.1.1, h.1.2, fun hw => ?_⟩
  rcases h.2 with h2 | h2
  · rw [hw] at h2; cases h2
  · exact h2

theorem low_fix : ∀ y : Str, (∀ c ∈ y, lowc c = c) → low y = y := by
  intro y
  induction y with
  | nil => intro _; rfl
  | cons c t ih =>
    intro h
    have h1 := h c (by simp)
    have h2 := ih (fun d hd => h d (by simp [hd]))
    simp only [low, List.map_cons] at h2 ⊢
    rw [h1, h2]

theorem replCher_fix (y : Str) (h : hasCher y = false) : replCher y = y := by
  induction y using replCher.induct with
  | case1 rest ih =>
    rw [hasCher] at h
    cases h
  | case2 c rest hshape ih =>
    rw [hasCher] at h
    · rw [replCher]
      · rw [ih h]
      · exact hshape
    · exact hshape
  | case3 => rfl

theorem isPrefixOf_append_drop : ∀ p s : Str, p.isPrefixOf s = true →
    p ++ s.drop p.length = s := by
  intro p
  induction p with
  | nil => intro s _; simp
  | cons a p ih =>
    intro s hp
    cases s with
    | nil => simp [List.isPrefixOf] at hp
    | cons b t =>
      simp only [List.isPrefixOf, Bool.and_eq_true, beq_iff_eq] at hp
      rcases hp with ⟨rfl, hpt⟩
      simp only [List.cons_append, List.length_cons, List.drop_succ_cons]
      rw [ih t hpt]

theorem subUnitF_fix (cy la : Str) : ∀ fuel (y : Str),
    unitCanonF cy la fuel y = true → subUnitF cy la la fuel y = y := by
  intro fuel
  induction fuel with
  | zero => intro y _; rfl
  | succ fuel ih =>
    intro y hc
    match y with
    | [] => rfl
    | c :: rest =>
      rw [unitCanonF] at hc
      rw [subUnitF]
      cases hd : isDigitC c with
      | false =>
        simp only [hd] at hc ⊢
        simp only [Bool.false_eq_true, if_false] at hc ⊢
        rw [ih rest hc]
      | true =>
        cases hcy : cy.isPrefixOf (dropWs (takeDigits (c :: rest)).2) with
        | true => simp [hd, hcy] at hc
        | false =>
          cases hla : la.isPrefixOf (dropWs (takeDigits (c :: rest)).2) with
          | false =>
            simp only [hd, hcy, hla] at hc ⊢
            simp only [Bool.false_eq_true, if_false, if_true] at hc ⊢
            rw [ih rest hc]
          | true =>
            simp only [hd, hcy, hla] at hc ⊢
            simp only [Bool.false_eq_true, if_false, if_true,
              Bool.and_eq_true, beq_iff_eq] at hc ⊢
            obtain ⟨heq, hrec⟩ := hc
            rw [ih _ hrec, List.append_assoc,
              isPrefixOf_append_drop la _ hla, heq]
            exact takeDigits_app (c :: rest)

theorem filt_fix : ∀ (y : Str), (∀ c ∈ y, isAllowedC c = true) →
    ∀ b, filtAux b y = y := by
  intro y
  induction y with
  | nil => intro _ b; rfl
  | cons c t ih =>
    intro h b
    rw [filtAux]
    simp only [h c (by simp)]
    simp only [if_true]
    rw [ih (fun d hd => h d (by simp [hd])) false]

theorem noDoubleWs_tail (c : Nat) (t : Str) (h : noDoubleWs (c :: t) = true) :
    noDoubleWs t = true := by
  cases t with
  | nil => rfl
  | cons d u =>
    rw [noDoubleWs, Bool.and_eq_true] at h
    exact h.2

theorem noDoubleWs_head (c d : Nat) (u : Str)
    (h : noDoubleWs (c :: d :: u) = true) (hc : isWsC c = true) :
    isWsC d = false := by
  rw [noDoubleWs, Bool.and_eq_true] at h
  have h1 := h.1
  rw [Bool.not_eq_true', Bool.and_eq_false_iff] at h1
  rcases h1 with h1 | h1
  · rw [hc] at h1; cases h1
  · exact h1

theorem coll_fix : ∀ (y : Str) (b : Bool),
    (∀ c ∈ y, isWsC c = true → c = 32) → noDoubleWs y = true →
    (b = true → noLeadWs y = true) → collAux b y = y := by
  intro y
  induction y with
  | nil => intro b _ _ _; rfl
  | cons c t ih =>
    intro b hws hnd hb
    cases hc : isWsC c with
    | true =>
      have hb2 : b = false := by
        cases b with
        | false => rfl
        | true =>
          have hlead := hb rfl
          rw [noLeadWs, hc] at hlead
          cases hlead
      subst hb2
      rw [collAux]
      simp only [hc, if_true, if_false]
      have hc32 : c = 32 := hws c (by simp) hc
      have hlead : noLeadWs t = true := by
        cases t with
        | nil => rfl
        | cons d u =>
          rw [noLeadWs, noDoubleWs_head c d u hnd hc]
          rfl
      rw [ih true (fun d hd => hws d (by simp [hd]))
        (noDoubleWs_tail c t hnd) (fun _ => hlead), hc32]
      simp
    | false =>
      rw [collAux]
      simp only [hc, Bool.false_eq_true, if_false]
      rw [ih false (fun d hd => hws d (by simp [hd]))
        (noDoubleWs_tail c t hnd) (fun hf => by cases hf)]

theorem dropWhileWs_fix (y : Str) (h : noLeadWs y = true) :
    y.dropWhile (fun c => isWsC c) = y := by
  cases y with
  | nil => rfl
  | cons c t =>
    rw [noLeadWs] at h
    have hfalse : isWsC c = false := by simpa using h
    rw [List.dropWhile_cons]
    simp [hfalse]

theorem strip_fix (y : Str) (h1 : noLeadWs y = true)
    (h2 : noLeadWs y.reverse = true) : stripWs y = y := by
  rw [stripWs, dropWhileWs_fix y h1, dropWhileWs_fix y.reverse h2,
    List.reverse_reverse]

/-- Every string in normal form is a fixed point of `normalize_text`. -/
theorem normalize_fix (y : Str) (h : isNormalForm y = true) :
    normalize_text y = y := by
  rw [isNormalForm] at h
  simp only [Bool.and_eq_true, List.all_eq_true, Bool.not_eq_true'] at h
  obtain ⟨⟨⟨⟨⟨⟨hchar, hnd⟩, hlead⟩, htrail⟩, hcher⟩, hgb⟩, htb⟩ := h
  have hallow : ∀ c ∈ y, isAllowedC c = true :=
    fun c hc => (charOk_split c (hchar c hc)).1
  have hlow : ∀ c ∈ y, lowc c = c :=
    fun c hc => (charOk_split c (hchar c hc)).2.1
  have hws32 : ∀ c ∈ y, isWsC c = true → c = 32 :=
    fun c hc => (charOk_split c (hchar c hc)).2.2
  rw [normalize_text, low_fix y hlow, replCher_fix y hcher,
    subGb, subUnitF_fix _ _ _ y hgb,
    subTb, subUnitF_fix _ _ _ y htb,
    filt, filt_fix y hallow false,
    collapseWs, coll_fix y false hws32 hnd (fun hf => by cases hf),
    strip_fix y hlead htrail]

/-! ### C6 -/

/-- Counterexample to C6: `normalize_text` is not idempotent.  On
«12.gb» the stripped dot becomes a space, producing «12 gb»; a second
pass then rewrites the now-adjacent capacity expression to «12gb». -/
theorem c6_normalize_cex :
    normalize_text [49, 50, 46, 103, 98] = [49, 50, 32, 103, 98] ∧
    normalize_text (normalize_text [49, 50, 46, 103, 98]) =
      [49, 50, 103, 98] ∧
    normalize_text (normalize_text [49, 50, 46, 103, 98]) ≠
      normalize_text [49, 50, 46, 103, 98] := by decide

/-- C6 (amended): `normalize_text` is pure and total (it is a total
function of its input), but idempotent only conditionally: a second
application changes nothing whenever the first output is in normal form
(all characters allowed and lower-case, single plain internal spaces,
trimmed ends, no «чёр», capacity expressions already canonical) —
the counterexample «12.gb» shows the unconditional claim fails when a
stripped character separated a digit run from a capacity unit. -/
theorem c6_normalize_amended (s : Str)
    (h : isNormalForm (normalize_text s) = true) :
    normalize_text (normalize_text s) = normalize_text s :=
  normalize_fix (normalize_text s) h

/-- Witness for C6 (amended) at «iphone 12gb», whose normal form is
itself. -/
theorem c6_normalize_witness :
    isNormalForm
      (normalize_text [105, 112, 104, 111, 110, 101, 32, 49, 50, 103, 98]) =
      true ∧
    normalize_text
      (normalize_text [105, 112, 104, 111, 110, 101, 32, 49, 50, 103, 98]) =
      normalize_text [105, 112, 104, 111, 110, 101, 32, 49, 50, 103, 98] :=
  ⟨by decide,
   c6_normalize_amended [105, 112, 104, 111, 110, 101, 32, 49, 50, 103, 98]
     (by decide)⟩

end Avito
